import Mathlib

/-!
Verification of the geometry/physics core of
`src/circles-bouncing-off-lines/circles-bouncing-off-lines.js`.

The JavaScript source is shallowly embedded over the real numbers: the
`{x, y}` records become the structure `Vec`, the objects built by
`makeCircle` / `makeLine` become `Circle` / `Line`, the pure helpers in the
source's `trig` and `physics` namespaces become Lean functions of the same
names, and the unbounded `while` loop of `physics.bounceCircle` becomes a
fuel-indexed function returning `Option Circle` (`none` means the fuel ran
out while the loop condition still held).  The destructive mutations of the
source (`circle.velocity.y += ...` and friends) become functions returning
the updated record; the backwards `for` loop with `splice` in
`updateCircles` becomes structural recursion that processes the tail (the
higher indices, which the source visits first) before the head.
-/

namespace CBL

open scoped Classical

noncomputable section

/-- A 2D point or vector, the `{x: ..., y: ...}` records of the source. -/
@[ext]
structure Vec where
  x : ℝ
  y : ℝ

/-- A circle body, as built by `makeCircle`: `center`, `velocity`, `radius`
(the drawing closure is rendering-only and is not part of the core state). -/
@[ext]
structure Circle where
  center : Vec
  velocity : Vec
  radius : ℝ

/-- A line segment, as built by `makeLine`: `center`, `len`, `angle` in
degrees, and `rotateSpeed`. -/
@[ext]
structure Line where
  center : Vec
  len : ℝ
  angle : ℝ
  rotateSpeed : ℝ

namespace trig

/-- `trig.distance(point1, point2)` (source lines 187-191). -/
def distance (p q : Vec) : ℝ :=
  Real.sqrt ((p.x - q.x) * (p.x - q.x) + (p.y - q.y) * (p.y - q.y))

/-- `trig.magnitude(vector)` (source lines 196-198). -/
def magnitude (v : Vec) : ℝ :=
  Real.sqrt (v.x * v.x + v.y * v.y)

/-- `trig.unitVector(vector)` (source lines 204-209). -/
def unitVector (v : Vec) : Vec :=
  ⟨v.x / magnitude v, v.y / magnitude v⟩

/-- `trig.dotProduct(vector1, vector2)` (source lines 218-220). -/
def dotProduct (a b : Vec) : ℝ :=
  a.x * b.x + a.y * b.y

/-- `trig.vectorBetween(startPoint, endPoint)` (source lines 224-229). -/
def vectorBetween (s e : Vec) : Vec :=
  ⟨e.x - s.x, e.y - s.y⟩

/-- The local `angleRadians` of `trig.lineEndPoints` (source line 234). -/
def lineAngleRadians (l : Line) : ℝ := l.angle * 0.01745

/-- The heading vector `{x: Math.cos(angleRadians), y: Math.sin(angleRadians)}`
passed to `unitVector` inside `trig.lineEndPoints` (source lines 238-241). -/
def lineHeading (l : Line) : Vec :=
  ⟨Real.cos (lineAngleRadians l), Real.sin (lineAngleRadians l)⟩

/-- The local `endOffsetFromCenterVector` of `trig.lineEndPoints`
(source lines 246-249). -/
def lineHalfOffset (l : Line) : Vec :=
  ⟨(unitVector (lineHeading l)).x * l.len / 2,
   (unitVector (lineHeading l)).y * l.len / 2⟩

/-- `trig.lineEndPoints(line)` (source lines 233-267): the two ends, center
plus offset and center minus offset. -/
def lineEndPoints (l : Line) : Vec × Vec :=
  (⟨l.center.x + (lineHalfOffset l).x, l.center.y + (lineHalfOffset l).y⟩,
   ⟨l.center.x - (lineHalfOffset l).x, l.center.y - (lineHalfOffset l).y⟩)

/-- The local `lineUnitVector` of `trig.pointOnLineClosestToCircle`
(source lines 278-279). -/
def lineUnitVector (l : Line) : Vec :=
  unitVector (vectorBetween (lineEndPoints l).1 (lineEndPoints l).2)

/-- The local `projection` of `trig.pointOnLineClosestToCircle`
(source line 291). -/
def projectionOf (c : Circle) (l : Line) : ℝ :=
  dotProduct (vectorBetween (lineEndPoints l).1 c.center) (lineUnitVector l)

/-- `trig.pointOnLineClosestToCircle(circle, line)` (source lines 271-312). -/
def pointOnLineClosestToCircle (c : Circle) (l : Line) : Vec :=
  if projectionOf c l ≤ 0 then (lineEndPoints l).1
  else if projectionOf c l ≥ l.len then (lineEndPoints l).2
  else ⟨(lineEndPoints l).1.x + (lineUnitVector l).x * projectionOf c l,
        (lineEndPoints l).1.y + (lineUnitVector l).y * projectionOf c l⟩

/-- `trig.isLineIntersectingCircle(circle, line)` (source lines 316-327):
distance from the center to the closest point is strictly below the radius. -/
def isLineIntersectingCircle (c : Circle) (l : Line) : Prop :=
  distance c.center (pointOnLineClosestToCircle c l) < c.radius

end trig

namespace physics

/-- `physics.applyGravity(circle)` (source lines 336-338). -/
def applyGravity (c : Circle) : Circle :=
  { c with velocity := ⟨c.velocity.x, c.velocity.y + 0.06⟩ }

/-- `physics.moveCircle(circle)` (source lines 341-344). -/
def moveCircle (c : Circle) : Circle :=
  { c with center := ⟨c.center.x + c.velocity.x, c.center.y + c.velocity.y⟩ }

/-- `physics.bounceLineNormal(circle, line)` (source lines 370-384). -/
def bounceLineNormal (c : Circle) (l : Line) : Vec :=
  trig.unitVector (trig.vectorBetween (trig.pointOnLineClosestToCircle c l) c.center)

/-- The velocity after the reflection step of `physics.bounceCircle`
(source lines 356-358): `velocity -= 2 * dot * bounceLineNormal`. -/
def reflectVelocity (c : Circle) (l : Line) : Vec :=
  ⟨c.velocity.x - 2 * trig.dotProduct c.velocity (bounceLineNormal c l) * (bounceLineNormal c l).x,
   c.velocity.y - 2 * trig.dotProduct c.velocity (bounceLineNormal c l) * (bounceLineNormal c l).y⟩

/-- The `while (trig.isLineIntersectingCircle(circle, line)) moveCircle(circle)`
loop of `physics.bounceCircle` (source lines 362-364), indexed by fuel.
`none` means the fuel was exhausted with the loop condition still true. -/
def resolveLoop (l : Line) : ℕ → Circle → Option Circle
  | 0, c => if trig.isLineIntersectingCircle c l then none else some c
  | fuel + 1, c =>
    if trig.isLineIntersectingCircle c l then resolveLoop l fuel (moveCircle c)
    else some c

/-- `physics.bounceCircle(circle, line)` (source lines 348-365): reflect the
velocity in the bounce normal, then run the penetration-resolution loop. -/
def bounceCircle (fuel : ℕ) (c : Circle) (l : Line) : Option Circle :=
  resolveLoop l fuel { c with velocity := reflectVelocity c l }

end physics

/-- `isCircleInWorld(circle, worldDimensions)` (source lines 173-178). -/
def isCircleInWorld (c : Circle) (dims : Vec) : Prop :=
  c.center.x > -c.radius ∧ c.center.x < dims.x + c.radius ∧
  c.center.y > -c.radius ∧ c.center.y < dims.y + c.radius

/-- One iteration of `updateLines` (source line 109):
`world.lines[i].angle += world.lines[i].rotateSpeed`. -/
def updateLine (l : Line) : Line :=
  { l with angle := l.angle + l.rotateSpeed }

/-- `updateLines(world)` (source lines 107-111): every line's angle advances
by its rotate speed; all other fields are untouched. -/
def updateLines (ls : List Line) : List Line :=
  ls.map updateLine

/-- The inner `for (j...)` loop of `updateCircles` (source lines 73-80):
bounce the circle off every intersecting line, in list order. -/
def bounceOffLines (fuel : ℕ) : List Line → Circle → Option Circle
  | [], c => some c
  | l :: ls, c =>
    if trig.isLineIntersectingCircle c l then
      match physics.bounceCircle fuel c l with
      | some c1 => bounceOffLines fuel ls c1
      | none => none
    else bounceOffLines fuel ls c

/-- The per-circle body of `updateCircles` (source lines 70-87): bounce off
all lines, then apply gravity, then move. -/
def processCircle (fuel : ℕ) (lines : List Line) (c : Circle) : Option Circle :=
  match bounceOffLines fuel lines c with
  | some c1 => some (physics.moveCircle (physics.applyGravity c1))
  | none => none

/-- `updateCircles(world)` (source lines 68-93): the backwards
`for (i = length-1; i >= 0; i--)` loop with `splice(i, 1)` removal.  The
source visits the highest index first, so the recursion processes the tail
before the head; a circle that fails `isCircleInWorld` after moving is
dropped from the result (the `splice`). -/
def updateCircles (fuel : ℕ) (lines : List Line) (dims : Vec) : List Circle → Option (List Circle)
  | [] => some []
  | c :: rest =>
    match updateCircles fuel lines dims rest, processCircle fuel lines c with
    | some rest1, some c1 =>
      some (if isCircleInWorld c1 dims then c1 :: rest1 else rest1)
    | _, _ => none

/-- Specification-side reference for the world step: process every circle
exactly once, in list order, independently of the others. -/
def processAllCircles (fuel : ℕ) (lines : List Line) : List Circle → Option (List Circle)
  | [] => some []
  | c :: cs =>
    match processCircle fuel lines c, processAllCircles fuel lines cs with
    | some c1, some cs1 => some (c1 :: cs1)
    | _, _ => none

/-- Specification-side reference for removal: keep exactly the circles that
are still in the world, preserving their order. -/
def cullOutOfWorld (dims : Vec) : List Circle → List Circle
  | [] => []
  | c :: cs =>
    if isCircleInWorld c dims then c :: cullOutOfWorld dims cs
    else cullOutOfWorld dims cs

/-- The five-segment world of `start()` uses this line shape; `makeLine`
(source lines 144-170) fixes `len = 70`, `angle = 0`, `rotateSpeed = 0.5`.
This instance is the one centered at `{x: 100, y: 100}`. -/
def lineA : Line := ⟨⟨100, 100⟩, 70, 0, 0.5⟩

/-- A circle tangent to `lineA`: its center is exactly one radius above the
segment. -/
def circleTangent : Circle := ⟨⟨100, 95⟩, ⟨0, 2⟩, 5⟩

/-- A circle overlapping `lineA` while falling: distance 4 < radius 5. -/
def circleHit : Circle := ⟨⟨100, 96⟩, ⟨0, 2⟩, 5⟩

/-- A circle whose center lies exactly on `lineA`. -/
def circleOnLine : Circle := ⟨⟨100, 100⟩, ⟨0, 2⟩, 5⟩

/-- A circle overlapping `lineA` with zero velocity. -/
def circleStuck : Circle := ⟨⟨100, 99⟩, ⟨0, 0⟩, 5⟩

/-- The state of `circleHit` after `physics.bounceCircle` finishes. -/
def circleAfterBounce : Circle := ⟨⟨100, 94⟩, ⟨0, -2⟩, 5⟩

/-- A circle sitting exactly on the expanded left world boundary. -/
def circleEdge : Circle := ⟨⟨-5, 50⟩, ⟨0, 0⟩, 5⟩

end

/-! ### Basic facts about the vector helpers -/

lemma sqrt_eq_of_sq {X c : ℝ} (hc : 0 ≤ c) (h : X = c * c) : Real.sqrt X = c := by
  rw [h, Real.sqrt_mul_self hc]

lemma magnitude_nonneg (v : Vec) : 0 ≤ trig.magnitude v :=
  Real.sqrt_nonneg _

lemma magnitude_mul_self (v : Vec) :
    trig.magnitude v * trig.magnitude v = v.x * v.x + v.y * v.y :=
  Real.mul_self_sqrt (by nlinarith [mul_self_nonneg v.x, mul_self_nonneg v.y])

lemma magnitude_pos {v : Vec} (h : v ≠ (⟨0, 0⟩ : Vec)) : 0 < trig.magnitude v := by
  have hsum : 0 < v.x * v.x + v.y * v.y := by
    rcases eq_or_ne v.x 0 with hx | hx
    · rcases eq_or_ne v.y 0 with hy | hy
      · exact absurd (Vec.ext hx hy) h
      · nlinarith [mul_self_nonneg v.x, mul_self_pos.mpr hy]
    · nlinarith [mul_self_pos.mpr hx, mul_self_nonneg v.y]
  exact Real.sqrt_pos.mpr hsum

lemma unitVector_dot_self {v : Vec} (h : v ≠ (⟨0, 0⟩ : Vec)) :
    trig.dotProduct (trig.unitVector v) (trig.unitVector v) = 1 := by
  have hm := magnitude_pos h
  have hsq := magnitude_mul_self v
  simp only [trig.dotProduct, trig.unitVector]
  field_simp
  linarith [hsq]

lemma dot_unitVector_self {v : Vec} (h : v ≠ (⟨0, 0⟩ : Vec)) :
    trig.dotProduct v (trig.unitVector v) = trig.magnitude v := by
  have hm := magnitude_pos h
  have hsq := magnitude_mul_self v
  simp only [trig.dotProduct, trig.unitVector]
  field_simp
  linarith [hsq]

lemma dot_unitVector (z w : Vec) :
    trig.dotProduct z (trig.unitVector w) = trig.dotProduct z w / trig.magnitude w := by
  simp only [trig.dotProduct, trig.unitVector]
  ring

lemma dot_le_magnitude (z n : Vec) (hn : trig.dotProduct n n = 1) :
    trig.dotProduct z n ≤ trig.magnitude z := by
  have h2 : trig.dotProduct z n * trig.dotProduct z n ≤ z.x * z.x + z.y * z.y := by
    simp only [trig.dotProduct] at hn ⊢
    nlinarith [mul_self_nonneg (z.x * n.y - z.y * n.x)]
  calc trig.dotProduct z n ≤ |trig.dotProduct z n| := le_abs_self _
    _ = Real.sqrt (trig.dotProduct z n * trig.dotProduct z n) :=
        (Real.sqrt_mul_self_eq_abs _).symm
    _ ≤ Real.sqrt (z.x * z.x + z.y * z.y) := Real.sqrt_le_sqrt h2
    _ = trig.magnitude z := rfl

lemma distance_eq_magnitude (p q : Vec) :
    trig.distance p q = trig.magnitude (trig.vectorBetween q p) := rfl

/-! ### Segment geometry -/

lemma magnitude_lineHeading (l : Line) : trig.magnitude (trig.lineHeading l) = 1 := by
  simp only [trig.magnitude, trig.lineHeading]
  rw [show Real.cos (trig.lineAngleRadians l) * Real.cos (trig.lineAngleRadians l) +
        Real.sin (trig.lineAngleRadians l) * Real.sin (trig.lineAngleRadians l) = 1 by
      linear_combination Real.sin_sq_add_cos_sq (trig.lineAngleRadians l)]
  exact Real.sqrt_one

lemma unitVector_lineHeading (l : Line) :
    trig.unitVector (trig.lineHeading l) = trig.lineHeading l := by
  simp only [trig.unitVector, magnitude_lineHeading, div_one]

lemma lineHalfOffset_eval (l : Line) :
    trig.lineHalfOffset l =
      ⟨Real.cos (trig.lineAngleRadians l) * l.len / 2,
       Real.sin (trig.lineAngleRadians l) * l.len / 2⟩ := by
  simp only [trig.lineHalfOffset, unitVector_lineHeading]
  rfl

lemma endDiff_eval (l : Line) :
    trig.vectorBetween (trig.lineEndPoints l).1 (trig.lineEndPoints l).2 =
      ⟨-(Real.cos (trig.lineAngleRadians l) * l.len),
       -(Real.sin (trig.lineAngleRadians l) * l.len)⟩ := by
  simp only [trig.vectorBetween, trig.lineEndPoints, lineHalfOffset_eval]
  ext <;> · simp only; ring

lemma magnitude_endDiff (l : Line) (h : 0 ≤ l.len) :
    trig.magnitude (trig.vectorBetween (trig.lineEndPoints l).1 (trig.lineEndPoints l).2)
      = l.len := by
  rw [endDiff_eval]
  simp only [trig.magnitude]
  exact sqrt_eq_of_sq h
    (by linear_combination (l.len * l.len) * Real.sin_sq_add_cos_sq (trig.lineAngleRadians l))

lemma lineUnitVector_components (l : Line) (hlen : 0 < l.len) :
    trig.lineUnitVector l =
      ⟨((trig.lineEndPoints l).2.x - (trig.lineEndPoints l).1.x) / l.len,
       ((trig.lineEndPoints l).2.y - (trig.lineEndPoints l).1.y) / l.len⟩ := by
  simp only [trig.lineUnitVector, trig.unitVector, magnitude_endDiff l hlen.le]
  rfl

lemma lineUnitVector_eval (l : Line) (hlen : 0 < l.len) :
    trig.lineUnitVector l =
      ⟨-Real.cos (trig.lineAngleRadians l), -Real.sin (trig.lineAngleRadians l)⟩ := by
  rw [lineUnitVector_components l hlen]
  have hx := congrArg Vec.x (endDiff_eval l)
  have hy := congrArg Vec.y (endDiff_eval l)
  simp only [trig.vectorBetween] at hx hy
  ext
  · simp only
    rw [hx]
    field_simp
  · simp only
    rw [hy]
    field_simp

lemma endDiff_sq (l : Line) (hlen : 0 ≤ l.len) :
    ((trig.lineEndPoints l).2.x - (trig.lineEndPoints l).1.x) *
      ((trig.lineEndPoints l).2.x - (trig.lineEndPoints l).1.x)
    + ((trig.lineEndPoints l).2.y - (trig.lineEndPoints l).1.y) *
      ((trig.lineEndPoints l).2.y - (trig.lineEndPoints l).1.y)
    = l.len * l.len := by
  have h2 := magnitude_mul_self
    (trig.vectorBetween (trig.lineEndPoints l).1 (trig.lineEndPoints l).2)
  rw [magnitude_endDiff l hlen] at h2
  simpa [trig.vectorBetween] using h2.symm

lemma projection_formula (c : Circle) (l : Line) (hlen : 0 < l.len) :
    trig.projectionOf c l * l.len =
      (c.center.x - (trig.lineEndPoints l).1.x) *
        ((trig.lineEndPoints l).2.x - (trig.lineEndPoints l).1.x)
      + (c.center.y - (trig.lineEndPoints l).1.y) *
        ((trig.lineEndPoints l).2.y - (trig.lineEndPoints l).1.y) := by
  simp only [trig.projectionOf, trig.dotProduct, trig.vectorBetween,
    lineUnitVector_components l hlen]
  field_simp

/-! ### The three branches of `pointOnLineClosestToCircle` -/

lemma closest_of_nonpos {c : Circle} {l : Line} (h : trig.projectionOf c l ≤ 0) :
    trig.pointOnLineClosestToCircle c l = (trig.lineEndPoints l).1 := by
  simp only [trig.pointOnLineClosestToCircle]
  rw [if_pos h]

lemma closest_of_ge {c : Circle} {l : Line} (h0 : ¬ trig.projectionOf c l ≤ 0)
    (h1 : trig.projectionOf c l ≥ l.len) :
    trig.pointOnLineClosestToCircle c l = (trig.lineEndPoints l).2 := by
  simp only [trig.pointOnLineClosestToCircle]
  rw [if_neg h0, if_pos h1]

lemma closest_of_mid {c : Circle} {l : Line} (h0 : ¬ trig.projectionOf c l ≤ 0)
    (h1 : ¬ trig.projectionOf c l ≥ l.len) :
    trig.pointOnLineClosestToCircle c l =
      ⟨(trig.lineEndPoints l).1.x + (trig.lineUnitVector l).x * trig.projectionOf c l,
       (trig.lineEndPoints l).1.y + (trig.lineUnitVector l).y * trig.projectionOf c l⟩ := by
  simp only [trig.pointOnLineClosestToCircle]
  rw [if_neg h0, if_neg h1]

/-- The computed closest point always lies on the segment: it is a convex
combination of the two endpoints. -/
lemma closest_on_segment (c : Circle) (l : Line) (hlen : 0 < l.len) :
    ∃ t : ℝ, 0 ≤ t ∧ t ≤ 1 ∧
      trig.pointOnLineClosestToCircle c l =
        ⟨(trig.lineEndPoints l).1.x +
            t * ((trig.lineEndPoints l).2.x - (trig.lineEndPoints l).1.x),
         (trig.lineEndPoints l).1.y +
            t * ((trig.lineEndPoints l).2.y - (trig.lineEndPoints l).1.y)⟩ := by
  by_cases h0 : trig.projectionOf c l ≤ 0
  · refine ⟨0, le_refl 0, zero_le_one, ?_⟩
    rw [closest_of_nonpos h0]
    ext <;> · simp only; ring
  · by_cases h1 : trig.projectionOf c l ≥ l.len
    · refine ⟨1, zero_le_one, le_refl 1, ?_⟩
      rw [closest_of_ge h0 h1]
      ext <;> · simp only; ring
    · push_neg at h0 h1
      refine ⟨trig.projectionOf c l / l.len, div_nonneg h0.le hlen.le, ?_, ?_⟩
      · rw [div_le_one hlen]
        exact h1.le
      · rw [closest_of_mid (not_le.mpr h0) (not_le.mpr h1), lineUnitVector_components l hlen]
        ext <;> · simp only; ring

/-- Scalar core of the obtuse-angle property of the clamped projection:
with `a b` the segment direction, `px py` the vector from the first endpoint
to the query point, `proj` the scalar projection and `s` the clamped
parameter, the vector from the clamped point to the query point makes an
obtuse angle with the vector from the clamped point to any segment point. -/
lemma obtuse_algebra (px py a b len proj s t : ℝ) (hlen : 0 < len)
    (hsq : a * a + b * b = len * len) (hpf : proj * len = px * a + py * b)
    (ht0 : 0 ≤ t) (ht1 : t ≤ 1)
    (hbranch : (s = 0 ∧ proj ≤ 0) ∨ (s = 1 ∧ len ≤ proj) ∨ s * len = proj) :
    (px - s * a) * (t * a - s * a) + (py - s * b) * (t * b - s * b) ≤ 0 := by
  rcases hbranch with ⟨rfl, hp⟩ | ⟨rfl, hp⟩ | hp
  · have hPL : proj * len ≤ 0 := by nlinarith [hp, hlen]
    nlinarith [ht0, hpf, hPL]
  · have h1t : 0 ≤ 1 - t := by linarith
    have hPL : 0 ≤ proj * len - len * len := by nlinarith [hp, hlen]
    nlinarith [h1t, hPL, hpf, hsq]
  · apply le_of_eq
    linear_combination (-(t - s) * len) * hp + (-(t - s)) * hpf + (-(t - s) * s) * hsq

/-- The obtuse-angle property of the computed closest point: the vector from
the closest point to the circle's center makes an obtuse (or right) angle
with the vector from the closest point to any other point of the segment. -/
lemma closest_obtuse (c : Circle) (l : Line) (hlen : 0 < l.len) (t : ℝ)
    (ht0 : 0 ≤ t) (ht1 : t ≤ 1) :
    trig.dotProduct
      (trig.vectorBetween (trig.pointOnLineClosestToCircle c l) c.center)
      (trig.vectorBetween (trig.pointOnLineClosestToCircle c l)
        ⟨(trig.lineEndPoints l).1.x +
            t * ((trig.lineEndPoints l).2.x - (trig.lineEndPoints l).1.x),
         (trig.lineEndPoints l).1.y +
            t * ((trig.lineEndPoints l).2.y - (trig.lineEndPoints l).1.y)⟩) ≤ 0 := by
  have hsq := endDiff_sq l hlen.le
  have hpf := projection_formula c l hlen
  by_cases h0 : trig.projectionOf c l ≤ 0
  · have key := obtuse_algebra (c.center.x - (trig.lineEndPoints l).1.x)
      (c.center.y - (trig.lineEndPoints l).1.y)
      ((trig.lineEndPoints l).2.x - (trig.lineEndPoints l).1.x)
      ((trig.lineEndPoints l).2.y - (trig.lineEndPoints l).1.y)
      l.len (trig.projectionOf c l) 0 t hlen hsq hpf ht0 ht1 (Or.inl ⟨rfl, h0⟩)
    rw [closest_of_nonpos h0]
    simp only [trig.dotProduct, trig.vectorBetween]
    refine le_trans (le_of_eq ?_) key
    ring
  · by_cases h1 : trig.projectionOf c l ≥ l.len
    · have key := obtuse_algebra (c.center.x - (trig.lineEndPoints l).1.x)
        (c.center.y - (trig.lineEndPoints l).1.y)
        ((trig.lineEndPoints l).2.x - (trig.lineEndPoints l).1.x)
        ((trig.lineEndPoints l).2.y - (trig.lineEndPoints l).1.y)
        l.len (trig.projectionOf c l) 1 t hlen hsq hpf ht0 ht1 (Or.inr (Or.inl ⟨rfl, h1⟩))
      rw [closest_of_ge h0 h1]
      simp only [trig.dotProduct, trig.vectorBetween]
      refine le_trans (le_of_eq ?_) key
      ring
    · have hp : trig.projectionOf c l / l.len * l.len = trig.projectionOf c l :=
        div_mul_cancel₀ _ hlen.ne'
      have key := obtuse_algebra (c.center.x - (trig.lineEndPoints l).1.x)
        (c.center.y - (trig.lineEndPoints l).1.y)
        ((trig.lineEndPoints l).2.x - (trig.lineEndPoints l).1.x)
        ((trig.lineEndPoints l).2.y - (trig.lineEndPoints l).1.y)
        l.len (trig.projectionOf c l) (trig.projectionOf c l / l.len) t hlen hsq hpf
        ht0 ht1 (Or.inr (Or.inr hp))
      rw [closest_of_mid h0 h1, lineUnitVector_components l hlen]
      simp only [trig.dotProduct, trig.vectorBetween]
      refine le_trans (le_of_eq ?_) key
      ring

/-! ### The penetration-resolution loop -/

/-- Iterating `moveCircle` `k` times translates the center by `k` times the
velocity and changes nothing else. -/
lemma iterate_moveCircle (c0 : Circle) : ∀ k : ℕ,
    (physics.moveCircle^[k] c0).center
        = ⟨c0.center.x + k * c0.velocity.x, c0.center.y + k * c0.velocity.y⟩
      ∧ (physics.moveCircle^[k] c0).velocity = c0.velocity
      ∧ (physics.moveCircle^[k] c0).radius = c0.radius
  | 0 => by
    refine ⟨?_, rfl, rfl⟩
    ext <;> simp
  | k + 1 => by
    obtain ⟨hc, hv, hr⟩ := iterate_moveCircle c0 k
    rw [Function.iterate_succ_apply']
    refine ⟨?_, ?_, ?_⟩
    · simp only [physics.moveCircle, hc, hv]
      ext <;> · simp only; push_cast; ring
    · simp only [physics.moveCircle, hv]
    · simp only [physics.moveCircle, hr]

/-- If after `k` steps the circle no longer intersects the line and the
fuel is at least `k`, the resolution loop exits. -/
lemma resolveLoop_exits (l : Line) : ∀ (fuel k : ℕ) (c0 : Circle), k ≤ fuel →
    ¬ trig.isLineIntersectingCircle (physics.moveCircle^[k] c0) l →
    ∃ out, physics.resolveLoop l fuel c0 = some out := by
  intro fuel
  induction fuel with
  | zero =>
    intro k c0 hk hni
    interval_cases k
    simp only [Function.iterate_zero_apply] at hni
    exact ⟨c0, by simp only [physics.resolveLoop, if_neg hni]⟩
  | succ fuel ih =>
    intro k c0 hk hni
    by_cases hI : trig.isLineIntersectingCircle c0 l
    · have hk0 : k ≠ 0 := by
        rintro rfl
        simp only [Function.iterate_zero_apply] at hni
        exact hni hI
      obtain ⟨k1, rfl⟩ := Nat.exists_eq_succ_of_ne_zero hk0
      have hk1 : k1 ≤ fuel := Nat.succ_le_succ_iff.mp hk
      have hni1 : ¬ trig.isLineIntersectingCircle
          (physics.moveCircle^[k1] (physics.moveCircle c0)) l := by
        rw [← Function.iterate_succ_apply]
        exact hni
      obtain ⟨out, hout⟩ := ih k1 (physics.moveCircle c0) hk1 hni1
      exact ⟨out, by simp only [physics.resolveLoop, if_pos hI]; exact hout⟩
    · exact ⟨c0, by simp only [physics.resolveLoop, if_neg hI]⟩

/-- Whenever the resolution loop returns a circle, that circle no longer
intersects the line: the loop exits only when its condition is false. -/
lemma resolveLoop_post (l : Line) : ∀ (fuel : ℕ) (c0 out : Circle),
    physics.resolveLoop l fuel c0 = some out →
    ¬ trig.isLineIntersectingCircle out l := by
  intro fuel
  induction fuel with
  | zero =>
    intro c0 out h
    by_cases hI : trig.isLineIntersectingCircle c0 l
    · simp only [physics.resolveLoop, if_pos hI] at h
      exact Option.noConfusion h
    · simp only [physics.resolveLoop, if_neg hI, Option.some.injEq] at h
      rw [← h]
      exact hI
  | succ fuel ih =>
    intro c0 out h
    by_cases hI : trig.isLineIntersectingCircle c0 l
    · simp only [physics.resolveLoop, if_pos hI] at h
      exact ih _ _ h
    · simp only [physics.resolveLoop, if_neg hI, Option.some.injEq] at h
      rw [← h]
      exact hI

/-- Scalar core of the separation bound: moving from the center `(cx, cy)`
along `(ax, ay)` for `kk` steps keeps the distance to any segment point
`(qtx, qty)` at least the initial separation `M` plus `kk` times the normal
component `D`, measured along the unit normal `(nx, ny)`. -/
lemma bound_algebra (M D kk cx cy q0x q0y qtx qty nx ny ax ay : ℝ)
    (hm : 0 < M)
    (hms : M * M = (cx - q0x) * (cx - q0x) + (cy - q0y) * (cy - q0y))
    (hnx : nx = (cx - q0x) / M) (hny : ny = (cy - q0y) / M)
    (hD : D = ax * nx + ay * ny)
    (hobt : (cx - q0x) * (qtx - q0x) + (cy - q0y) * (qty - q0y) ≤ 0) :
    M + kk * D ≤ (cx + kk * ax - qtx) * nx + (cy + kk * ay - qty) * ny := by
  subst hnx
  subst hny
  subst hD
  have h1 : M + kk * (ax * ((cx - q0x) / M) + ay * ((cy - q0y) / M))
      = (M * M + kk * (ax * (cx - q0x) + ay * (cy - q0y))) / M := by
    field_simp
  have h2 : (cx + kk * ax - qtx) * ((cx - q0x) / M) + (cy + kk * ay - qty) * ((cy - q0y) / M)
      = ((cx + kk * ax - qtx) * (cx - q0x) + (cy + kk * ay - qty) * (cy - q0y)) / M := by
    ring
  rw [h1, h2]
  refine (div_le_div_iff_of_pos_right hm).mpr ?_
  nlinarith [hobt, hms]

/-- Each loop iteration in the separating direction keeps the circle at
least the initial separation plus `k` times the normal velocity component
away from the segment: the distance from the moved center to its own
closest point on the segment is bounded below linearly in `k`. -/
lemma separation_lower_bound (c : Circle) (l : Line) (hlen : 0 < l.len)
    (hne : c.center ≠ trig.pointOnLineClosestToCircle c l) (k : ℕ) :
    trig.distance c.center (trig.pointOnLineClosestToCircle c l)
      + k * trig.dotProduct (physics.reflectVelocity c l) (physics.bounceLineNormal c l)
    ≤ trig.distance
        (physics.moveCircle^[k] { c with velocity := physics.reflectVelocity c l }).center
        (trig.pointOnLineClosestToCircle
          (physics.moveCircle^[k] { c with velocity := physics.reflectVelocity c l }) l) := by
  have hwne : trig.vectorBetween (trig.pointOnLineClosestToCircle c l) c.center
      ≠ (⟨0, 0⟩ : Vec) := by
    intro h0
    apply hne
    have hx := congrArg Vec.x h0
    have hy := congrArg Vec.y h0
    simp only [trig.vectorBetween] at hx hy
    ext
    · linarith [hx]
    · linarith [hy]
  have hm := magnitude_pos hwne
  have hn1 := unitVector_dot_self hwne
  obtain ⟨hc, hv, hr⟩ := iterate_moveCircle { c with velocity := physics.reflectVelocity c l } k
  have hc' : (physics.moveCircle^[k] { c with velocity := physics.reflectVelocity c l }).center
      = ⟨c.center.x + k * (physics.reflectVelocity c l).x,
         c.center.y + k * (physics.reflectVelocity c l).y⟩ := hc
  obtain ⟨t, ht0, ht1, hqk⟩ := closest_on_segment
    (physics.moveCircle^[k] { c with velocity := physics.reflectVelocity c l }) l hlen
  have hobt := closest_obtuse c l hlen t ht0 ht1
  rw [hqk, hc']
  simp only [distance_eq_magnitude]
  refine le_trans ?_ (dot_le_magnitude _ _ hn1)
  simp only [trig.dotProduct, trig.vectorBetween]
  apply bound_algebra
  · exact hm
  · exact magnitude_mul_self _
  · rfl
  · rfl
  · rfl
  · exact hobt

/-- The resolution loop never changes the radius or the velocity. -/
lemma resolveLoop_fields (l : Line) : ∀ (fuel : ℕ) (c0 out : Circle),
    physics.resolveLoop l fuel c0 = some out →
    out.radius = c0.radius ∧ out.velocity = c0.velocity := by
  intro fuel
  induction fuel with
  | zero =>
    intro c0 out h
    by_cases hI : trig.isLineIntersectingCircle c0 l
    · simp only [physics.resolveLoop, if_pos hI] at h
      exact Option.noConfusion h
    · simp only [physics.resolveLoop, if_neg hI, Option.some.injEq] at h
      rw [← h]
      exact ⟨rfl, rfl⟩
  | succ fuel ih =>
    intro c0 out h
    by_cases hI : trig.isLineIntersectingCircle c0 l
    · simp only [physics.resolveLoop, if_pos hI] at h
      obtain ⟨hr, hv⟩ := ih _ _ h
      exact ⟨hr, hv⟩
    · simp only [physics.resolveLoop, if_neg hI, Option.some.injEq] at h
      rw [← h]
      exact ⟨rfl, rfl⟩

/-! ### Concrete evaluations on the sample line and circles -/

lemma lineA_angleRadians : trig.lineAngleRadians lineA = 0 := by
  simp [trig.lineAngleRadians, lineA]

lemma lineA_halfOffset : trig.lineHalfOffset lineA = ⟨35, 0⟩ := by
  rw [lineHalfOffset_eval, lineA_angleRadians]
  norm_num [lineA, Real.cos_zero, Real.sin_zero, Vec.mk.injEq]

lemma lineA_endPoints : trig.lineEndPoints lineA = (⟨135, 100⟩, ⟨65, 100⟩) := by
  simp only [trig.lineEndPoints, lineA_halfOffset]
  norm_num [lineA, Prod.mk.injEq, Vec.mk.injEq]

lemma lineA_unitVector : trig.lineUnitVector lineA = ⟨-1, 0⟩ := by
  rw [lineUnitVector_eval lineA (by norm_num [lineA]), lineA_angleRadians]
  norm_num [Real.cos_zero, Real.sin_zero, Vec.mk.injEq]

lemma lineA_projection (c : Circle) (hx : c.center.x = 100) :
    trig.projectionOf c lineA = 35 := by
  simp only [trig.projectionOf, trig.dotProduct, trig.vectorBetween, lineA_endPoints,
    lineA_unitVector, hx]
  norm_num

lemma lineA_closest (c : Circle) (hx : c.center.x = 100) :
    trig.pointOnLineClosestToCircle c lineA = ⟨100, 100⟩ := by
  have hp := lineA_projection c hx
  rw [closest_of_mid (by rw [hp]; norm_num) (by rw [hp]; norm_num [lineA])]
  rw [hp, lineA_endPoints, lineA_unitVector]
  norm_num [Vec.mk.injEq]

lemma lineA_distance (c : Circle) (hx : c.center.x = 100) :
    trig.distance c.center (⟨100, 100⟩ : Vec) = |c.center.y - 100| := by
  simp only [trig.distance, hx]
  rw [show ((100 : ℝ) - 100) * (100 - 100) + (c.center.y - 100) * (c.center.y - 100)
      = (c.center.y - 100) * (c.center.y - 100) from by ring]
  exact Real.sqrt_mul_self_eq_abs _

lemma circleHit_intersecting : trig.isLineIntersectingCircle circleHit lineA := by
  simp only [trig.isLineIntersectingCircle]
  rw [lineA_closest circleHit (by norm_num [circleHit]),
    lineA_distance circleHit (by norm_num [circleHit])]
  norm_num [circleHit]

lemma circleHit_normal : physics.bounceLineNormal circleHit lineA = ⟨0, -1⟩ := by
  simp only [physics.bounceLineNormal, lineA_closest circleHit (by norm_num [circleHit])]
  rw [show trig.vectorBetween (⟨100, 100⟩ : Vec) circleHit.center = ⟨0, -4⟩ from by
    norm_num [trig.vectorBetween, circleHit, Vec.mk.injEq]]
  have hmag : trig.magnitude (⟨0, -4⟩ : Vec) = 4 := by
    simp only [trig.magnitude]
    exact sqrt_eq_of_sq (by norm_num) (by norm_num)
  simp only [trig.unitVector, hmag]
  norm_num [Vec.mk.injEq]

lemma circleHit_reflect : physics.reflectVelocity circleHit lineA = ⟨0, -2⟩ := by
  simp only [physics.reflectVelocity, circleHit_normal, trig.dotProduct]
  norm_num [circleHit, Vec.mk.injEq]

/-- The state of `circleHit` right after the velocity reflection. -/
def circleMid : Circle := ⟨⟨100, 96⟩, ⟨0, -2⟩, 5⟩

lemma circleHit_reflected_state :
    ({ circleHit with velocity := physics.reflectVelocity circleHit lineA } : Circle)
      = circleMid := by
  rw [circleHit_reflect]
  rfl

lemma circleMid_intersecting : trig.isLineIntersectingCircle circleMid lineA := by
  simp only [trig.isLineIntersectingCircle]
  rw [lineA_closest circleMid (by norm_num [circleMid]),
    lineA_distance circleMid (by norm_num [circleMid])]
  norm_num [circleMid]

lemma circleMid_move : physics.moveCircle circleMid = circleAfterBounce := by
  simp only [physics.moveCircle]
  norm_num [circleMid, circleAfterBounce, Circle.mk.injEq, Vec.mk.injEq]

lemma circleAfterBounce_clear : ¬ trig.isLineIntersectingCircle circleAfterBounce lineA := by
  simp only [trig.isLineIntersectingCircle]
  rw [lineA_closest circleAfterBounce (by norm_num [circleAfterBounce]),
    lineA_distance circleAfterBounce (by norm_num [circleAfterBounce])]
  norm_num [circleAfterBounce]

lemma bounce_eval : physics.bounceCircle 1 circleHit lineA = some circleAfterBounce := by
  show physics.resolveLoop lineA 1
    { circleHit with velocity := physics.reflectVelocity circleHit lineA } = _
  rw [circleHit_reflected_state]
  simp only [physics.resolveLoop, if_pos circleMid_intersecting, circleMid_move,
    if_neg circleAfterBounce_clear]

lemma circleStuck_intersecting : trig.isLineIntersectingCircle circleStuck lineA := by
  simp only [trig.isLineIntersectingCircle]
  rw [lineA_closest circleStuck (by norm_num [circleStuck]),
    lineA_distance circleStuck (by norm_num [circleStuck])]
  norm_num [circleStuck]

lemma circleStuck_reflect : physics.reflectVelocity circleStuck lineA = ⟨0, 0⟩ := by
  simp only [physics.reflectVelocity, trig.dotProduct]
  norm_num [circleStuck, Vec.mk.injEq]

lemma circleStuck_fixed :
    ({ circleStuck with velocity := physics.reflectVelocity circleStuck lineA } : Circle)
      = circleStuck := by
  rw [circleStuck_reflect]
  rfl

lemma circleStuck_move : physics.moveCircle circleStuck = circleStuck := by
  simp only [physics.moveCircle]
  norm_num [circleStuck, Circle.mk.injEq, Vec.mk.injEq]

lemma circleStuck_loop : ∀ fuel, physics.resolveLoop lineA fuel circleStuck = none := by
  intro fuel
  induction fuel with
  | zero => simp only [physics.resolveLoop, if_pos circleStuck_intersecting]
  | succ fuel ih =>
    simp only [physics.resolveLoop, if_pos circleStuck_intersecting, circleStuck_move]
    exact ih

/-! ### The claims -/

/-- Claim C1: `pointOnLineClosestToCircle` follows the clamped-projection
policy: projection at most `0` yields the first endpoint, projection at
least the segment length yields the second endpoint, otherwise the first
endpoint plus the unit direction scaled by the projection; and a point at a
perpendicular offset of the segment's midpoint yields the segment's
center. -/
theorem closestPoint_clamped_projection (c : Circle) (l : Line) (hlen : 0 < l.len) :
    (trig.projectionOf c l ≤ 0 →
      trig.pointOnLineClosestToCircle c l = (trig.lineEndPoints l).1) ∧
    (trig.projectionOf c l ≥ l.len →
      trig.pointOnLineClosestToCircle c l = (trig.lineEndPoints l).2) ∧
    (0 < trig.projectionOf c l → trig.projectionOf c l < l.len →
      trig.pointOnLineClosestToCircle c l =
        ⟨(trig.lineEndPoints l).1.x + (trig.lineUnitVector l).x * trig.projectionOf c l,
         (trig.lineEndPoints l).1.y + (trig.lineUnitVector l).y * trig.projectionOf c l⟩) ∧
    (trig.dotProduct (trig.vectorBetween l.center c.center) (trig.lineUnitVector l) = 0 →
      trig.pointOnLineClosestToCircle c l = l.center) := by
  refine ⟨fun h0 => closest_of_nonpos h0, fun h1 => ?_, fun h0 h1 => ?_, fun hperp => ?_⟩
  · exact closest_of_ge (not_le.mpr (lt_of_lt_of_le hlen h1)) h1
  · exact closest_of_mid (not_le.mpr h0) (not_le.mpr h1)
  · have hpy := Real.sin_sq_add_cos_sq (trig.lineAngleRadians l)
    have hu := lineUnitVector_eval l hlen
    have hproj : trig.projectionOf c l = l.len / 2 := by
      simp only [trig.projectionOf, trig.dotProduct, trig.vectorBetween, hu,
        trig.lineEndPoints, lineHalfOffset_eval] at hperp ⊢
      linear_combination hperp + (l.len / 2) * hpy
    rw [closest_of_mid (by rw [hproj]; exact not_le.mpr (by linarith))
        (by rw [hproj]; exact not_le.mpr (by linarith))]
    rw [hproj, hu]
    simp only [trig.lineEndPoints, lineHalfOffset_eval]
    ext <;> · simp only; ring

/-- Witness for C1: for the falling circle above the horizontal sample
segment, the point is at the perpendicular offset of the midpoint and the
computed closest point is the segment's center. -/
theorem closestPoint_clamped_projection_witness :
    trig.pointOnLineClosestToCircle circleHit lineA = lineA.center := by
  refine (closestPoint_clamped_projection circleHit lineA (by norm_num [lineA])).2.2.2 ?_
  rw [lineA_unitVector]
  norm_num [trig.dotProduct, trig.vectorBetween, circleHit, lineA]

/-- Claim C2: `isLineIntersectingCircle` holds exactly when the distance
from the center to the closest point is strictly below the radius; exact
tangency (distance equal to the radius) is not a collision. -/
theorem isIntersecting_strict_boundary (c : Circle) (l : Line) :
    (trig.isLineIntersectingCircle c l ↔
      trig.distance c.center (trig.pointOnLineClosestToCircle c l) < c.radius) ∧
    (trig.distance c.center (trig.pointOnLineClosestToCircle c l) = c.radius →
      ¬ trig.isLineIntersectingCircle c l) := by
  refine ⟨Iff.rfl, fun h hI => ?_⟩
  simp only [trig.isLineIntersectingCircle] at hI
  rw [h] at hI
  exact lt_irrefl _ hI

/-- Witness for C2: a circle whose center is exactly one radius away from
the segment is tangent, not intersecting. -/
theorem isIntersecting_strict_boundary_witness :
    ¬ trig.isLineIntersectingCircle circleTangent lineA :=
  (isIntersecting_strict_boundary circleTangent lineA).2 (by
    rw [lineA_closest circleTangent (by norm_num [circleTangent]),
      lineA_distance circleTangent (by norm_num [circleTangent])]
    norm_num [circleTangent])

/-- Claim C3: the reflection step of `bounceCircle` preserves the magnitude
of the velocity whenever the bounce is non-degenerate (center distinct from
the contact point, so the normal is a true unit vector). -/
theorem reflection_preserves_magnitude (c : Circle) (l : Line)
    (hne : c.center ≠ trig.pointOnLineClosestToCircle c l) :
    trig.magnitude (physics.reflectVelocity c l) = trig.magnitude c.velocity := by
  have hwne : trig.vectorBetween (trig.pointOnLineClosestToCircle c l) c.center
      ≠ (⟨0, 0⟩ : Vec) := by
    intro h0
    apply hne
    have hx := congrArg Vec.x h0
    have hy := congrArg Vec.y h0
    simp only [trig.vectorBetween] at hx hy
    ext
    · linarith [hx]
    · linarith [hy]
  have hn1 : (physics.bounceLineNormal c l).x * (physics.bounceLineNormal c l).x
      + (physics.bounceLineNormal c l).y * (physics.bounceLineNormal c l).y = 1 :=
    unitVector_dot_self hwne
  simp only [trig.magnitude, physics.reflectVelocity]
  congr 1
  simp only [trig.dotProduct]
  linear_combination (4 * (c.velocity.x * (physics.bounceLineNormal c l).x +
    c.velocity.y * (physics.bounceLineNormal c l).y) ^ 2) * hn1

/-- Witness for C3: the sample falling circle bounces non-degenerately and
its reflected velocity has the same magnitude as the incoming one. -/
theorem reflection_preserves_magnitude_witness :
    trig.magnitude (physics.reflectVelocity circleHit lineA)
      = trig.magnitude circleHit.velocity :=
  reflection_preserves_magnitude circleHit lineA (by
    rw [lineA_closest circleHit (by norm_num [circleHit])]
    intro h
    have hy := congrArg Vec.y h
    norm_num [circleHit] at hy)

/-- Claim C4, counterexample: the penetration-resolution loop does NOT
terminate for every intersecting body.  A circle overlapping the segment
with zero velocity reflects to zero velocity, `moveCircle` makes no
progress, and the loop condition stays true for every amount of fuel. -/
theorem penetration_loop_cex :
    trig.isLineIntersectingCircle circleStuck lineA ∧
    (∀ fuel, physics.bounceCircle fuel circleStuck lineA = none) := by
  refine ⟨circleStuck_intersecting, fun fuel => ?_⟩
  show physics.resolveLoop lineA fuel
    { circleStuck with velocity := physics.reflectVelocity circleStuck lineA } = none
  rw [circleStuck_fixed]
  exact circleStuck_loop fuel

/-- Claim C4 (amended): for a body intersecting a segment whose
post-reflection velocity has a strictly positive component along the bounce
normal (and whose center is distinct from the contact point), the
penetration-resolution loop terminates; moreover the separation after `k`
iterations is at least the initial separation plus `k` times that normal
component, so the lower bound on separation strictly grows each iteration
until exceeding the radius. -/
theorem penetration_loop_terminates_of_separating (c : Circle) (l : Line)
    (hlen : 0 < l.len)
    (hne : c.center ≠ trig.pointOnLineClosestToCircle c l)
    (hsep : 0 < trig.dotProduct (physics.reflectVelocity c l) (physics.bounceLineNormal c l)) :
    (∀ k : ℕ,
      trig.distance c.center (trig.pointOnLineClosestToCircle c l)
        + k * trig.dotProduct (physics.reflectVelocity c l) (physics.bounceLineNormal c l)
      ≤ trig.distance
          (physics.moveCircle^[k] { c with velocity := physics.reflectVelocity c l }).center
          (trig.pointOnLineClosestToCircle
            (physics.moveCircle^[k] { c with velocity := physics.reflectVelocity c l }) l))
    ∧ (∃ fuel out, physics.bounceCircle fuel c l = some out) := by
  refine ⟨fun k => separation_lower_bound c l hlen hne k, ?_⟩
  obtain ⟨k, hk⟩ := exists_nat_ge
    ((c.radius - trig.distance c.center (trig.pointOnLineClosestToCircle c l))
      / trig.dotProduct (physics.reflectVelocity c l) (physics.bounceLineNormal c l))
  have hbound := separation_lower_bound c l hlen hne k
  have hrad : c.radius ≤ trig.distance c.center (trig.pointOnLineClosestToCircle c l)
      + k * trig.dotProduct (physics.reflectVelocity c l) (physics.bounceLineNormal c l) := by
    rw [div_le_iff₀ hsep] at hk
    linarith [hk]
  have hni : ¬ trig.isLineIntersectingCircle
      (physics.moveCircle^[k] { c with velocity := physics.reflectVelocity c l }) l := by
    simp only [trig.isLineIntersectingCircle]
    push_neg
    have hr : (physics.moveCircle^[k]
        { c with velocity := physics.reflectVelocity c l }).radius = c.radius :=
      (iterate_moveCircle _ k).2.2
    rw [hr]
    exact le_trans hrad hbound
  obtain ⟨out, hout⟩ := resolveLoop_exits l k k _ (le_refl k) hni
  exact ⟨k, out, hout⟩

/-- Witness for the amended C4: the sample falling circle satisfies the
separating-direction hypothesis and its resolution loop terminates. -/
theorem penetration_loop_terminates_witness :
    ∃ fuel out, physics.bounceCircle fuel circleHit lineA = some out :=
  (penetration_loop_terminates_of_separating circleHit lineA (by norm_num [lineA])
    (by
      rw [lineA_closest circleHit (by norm_num [circleHit])]
      intro h
      have hy := congrArg Vec.y h
      norm_num [circleHit] at hy)
    (by
      rw [circleHit_reflect, circleHit_normal]
      norm_num [trig.dotProduct])).2

/-- Claim C5: whenever `bounceCircle` returns (the loop exits within the
given fuel), the returned circle no longer intersects the segment it
bounced off. -/
theorem bounce_postcondition (fuel : ℕ) (c out : Circle) (l : Line)
    (_hpre : trig.isLineIntersectingCircle c l)
    (hret : physics.bounceCircle fuel c l = some out) :
    ¬ trig.isLineIntersectingCircle out l :=
  resolveLoop_post l fuel _ out hret

/-- Witness for C5: bouncing the sample falling circle returns a circle
clear of the segment. -/
theorem bounce_postcondition_witness :
    ¬ trig.isLineIntersectingCircle circleAfterBounce lineA :=
  bounce_postcondition 1 circleHit circleAfterBounce lineA
    circleHit_intersecting bounce_eval

/-- Claim C6, counterexample: `unitVector` IS reachable with a zero-vector
argument.  `bounceLineNormal` has no guard: for a circle whose center lies
exactly on the segment (which intersects, so `bounceCircle`'s precondition
holds), the argument `vectorBetween(closest, center)` passed to
`unitVector` is the zero vector. -/
theorem unitVector_zero_argument_cex :
    trig.isLineIntersectingCircle circleOnLine lineA ∧
    trig.vectorBetween (trig.pointOnLineClosestToCircle circleOnLine lineA)
      circleOnLine.center = (⟨0, 0⟩ : Vec) := by
  constructor
  · simp only [trig.isLineIntersectingCircle]
    rw [lineA_closest circleOnLine (by norm_num [circleOnLine]),
      lineA_distance circleOnLine (by norm_num [circleOnLine])]
    norm_num [circleOnLine]
  · rw [lineA_closest circleOnLine (by norm_num [circleOnLine])]
    norm_num [trig.vectorBetween, circleOnLine, Vec.mk.injEq]

/-- Claim C6 (amended): the `unitVector` call sites in `lineEndPoints` (the
heading vector, of magnitude one) and in `pointOnLineClosestToCircle` (the
endpoint difference, of magnitude equal to the positive length) always
receive non-zero arguments; the call site in `bounceLineNormal` receives a
non-zero argument only under the extra guard that the body's center is
distinct from the closest point — the code itself has no such guard. -/
theorem unitVector_call_sites_nonzero (c : Circle) (l : Line) (hlen : 0 < l.len)
    (hne : c.center ≠ trig.pointOnLineClosestToCircle c l) :
    trig.lineHeading l ≠ (⟨0, 0⟩ : Vec) ∧
    trig.vectorBetween (trig.lineEndPoints l).1 (trig.lineEndPoints l).2 ≠ (⟨0, 0⟩ : Vec) ∧
    trig.vectorBetween (trig.pointOnLineClosestToCircle c l) c.center ≠ (⟨0, 0⟩ : Vec) := by
  refine ⟨?_, ?_, ?_⟩
  · intro h0
    have hmg := magnitude_lineHeading l
    rw [h0] at hmg
    simp only [trig.magnitude] at hmg
    rw [show (0 : ℝ) * 0 + 0 * 0 = 0 from by norm_num, Real.sqrt_zero] at hmg
    norm_num at hmg
  · intro h0
    have hmg := magnitude_endDiff l hlen.le
    rw [h0] at hmg
    simp only [trig.magnitude] at hmg
    rw [show (0 : ℝ) * 0 + 0 * 0 = 0 from by norm_num, Real.sqrt_zero] at hmg
    exact absurd hmg.symm hlen.ne'
  · intro h0
    apply hne
    have hx := congrArg Vec.x h0
    have hy := congrArg Vec.y h0
    simp only [trig.vectorBetween] at hx hy
    ext
    · linarith [hx]
    · linarith [hy]

/-- Witness for the amended C6: for the sample falling circle the
`bounceLineNormal` argument is non-zero. -/
theorem unitVector_call_sites_nonzero_witness :
    trig.vectorBetween (trig.pointOnLineClosestToCircle circleHit lineA)
      circleHit.center ≠ (⟨0, 0⟩ : Vec) :=
  (unitVector_call_sites_nonzero circleHit lineA (by norm_num [lineA])
    (by
      rw [lineA_closest circleHit (by norm_num [circleHit])]
      intro h
      have hy := congrArg Vec.y h
      norm_num [circleHit] at hy)).2.2

/-- Claim C7: `updateCircles` (the backwards loop with mid-pass `splice`
removal) processes each circle exactly once — bounce off every segment in
order, then gravity, then motion, then the out-of-bounds check — and equals
processing every circle independently followed by culling the out-of-world
ones, so removal neither skips nor double-processes any remaining body. -/
theorem updateCircles_processes_each_once (fuel : ℕ) (lines : List Line) (dims : Vec)
    (cs : List Circle) :
    updateCircles fuel lines dims cs
      = Option.map (cullOutOfWorld dims) (processAllCircles fuel lines cs) := by
  induction cs with
  | nil => simp [updateCircles, processAllCircles, cullOutOfWorld]
  | cons c cs ih =>
    simp only [updateCircles, processAllCircles, ih]
    cases hall : processAllCircles fuel lines cs <;>
      cases hproc : processCircle fuel lines c <;>
        simp [cullOutOfWorld]

/-- Claim C8: the distance between the two endpoints returned by
`lineEndPoints` equals the segment's length, for every angle (the heading
vector is normalized, so the degree conversion factor is irrelevant). -/
theorem endpoints_distance_eq_len (l : Line) (hlen : 0 ≤ l.len) :
    trig.distance (trig.lineEndPoints l).1 (trig.lineEndPoints l).2 = l.len := by
  simp only [trig.distance, trig.lineEndPoints, lineHalfOffset_eval]
  exact sqrt_eq_of_sq hlen
    (by linear_combination (l.len * l.len) * Real.sin_sq_add_cos_sq (trig.lineAngleRadians l))

/-- Witness for C8 at the sample segment of length 70. -/
theorem endpoints_distance_eq_len_witness :
    trig.distance (trig.lineEndPoints lineA).1 (trig.lineEndPoints lineA).2 = lineA.len :=
  endpoints_distance_eq_len lineA (by norm_num [lineA])

/-- Claim C9: every step operation preserves the structural fields — a
circle's radius never changes under gravity, motion or bouncing, and a
line's center and length never change under rotation; only the circle's
center/velocity and the line's angle are mutated. -/
theorem structural_fields_invariant (c out : Circle) (l lr : Line) (fuel : ℕ) :
    (physics.applyGravity c).radius = c.radius ∧
    (physics.applyGravity c).center = c.center ∧
    (physics.moveCircle c).radius = c.radius ∧
    (physics.moveCircle c).velocity = c.velocity ∧
    (physics.bounceCircle fuel c l = some out → out.radius = c.radius) ∧
    (updateLine lr).center = lr.center ∧
    (updateLine lr).len = lr.len := by
  refine ⟨rfl, rfl, rfl, rfl, fun h => ?_, rfl, rfl⟩
  exact (resolveLoop_fields l fuel _ out h).1

/-- Witness for C9: the sample bounce returns a circle of unchanged radius. -/
theorem structural_fields_invariant_witness :
    circleAfterBounce.radius = circleHit.radius :=
  (structural_fields_invariant circleHit circleAfterBounce lineA lineA 1).2.2.2.2.1
    bounce_eval

/-- Claim C10: `isCircleInWorld` holds exactly when the center lies strictly
inside the world rectangle expanded by the radius on all four sides, and a
center exactly on an expanded edge counts as out of the world. -/
theorem isCircleInWorld_iff_strict (c : Circle) (dims : Vec) :
    (isCircleInWorld c dims ↔
      (-c.radius < c.center.x ∧ c.center.x < dims.x + c.radius ∧
       -c.radius < c.center.y ∧ c.center.y < dims.y + c.radius)) ∧
    ((c.center.x = -c.radius ∨ c.center.x = dims.x + c.radius ∨
      c.center.y = -c.radius ∨ c.center.y = dims.y + c.radius) →
      ¬ isCircleInWorld c dims) := by
  constructor
  · exact Iff.rfl
  · intro h hw
    simp only [isCircleInWorld, gt_iff_lt] at hw
    obtain ⟨h1, h2, h3, h4⟩ := hw
    rcases h with h | h | h | h <;> linarith

/-- Witness for C10: a circle sitting exactly on the expanded left edge is
out of the world. -/
theorem isCircleInWorld_iff_strict_witness :
    ¬ isCircleInWorld circleEdge ⟨300, 200⟩ :=
  (isCircleInWorld_iff_strict circleEdge ⟨300, 200⟩).2 (Or.inl (by norm_num [circleEdge]))

end CBL
